import Mathlib

/-!
Shallow embedding of the Kriging surrogate engine
(openmdao/surrogate_models/kriging.py).

Conventions of the embedding:
* numpy float64 arrays are modelled over the real numbers; a numpy
  2-D array of shape (m, k) is a Mathlib `Matrix (Fin m) (Fin k) ℝ`.
* The two external scipy routines are modelled as oracle parameters:
  `scipy.linalg.svd` becomes an arbitrary function `SvdFun n` returning
  the triple (U, S, Vh), and `scipy.optimize.minimize` becomes an
  `OptResult d` record carrying the success flag, the diagnostic
  message and the optimized point, exactly the fields the source reads.
* Raising a `ValueError` and falling off the end of `train` are the
  observable outcomes of `train`; they are the constructors of
  `TrainResult`.  The source's `train` ends in a call to `exit()`
  (after two debug prints), so the state-storing outcome is named
  `exited`; a `returned` constructor stands for an ordinary return,
  which the source never performs.
-/

namespace Kriging

open Matrix

noncomputable section

/-- Result record of the scipy `minimize` call, restricted to the fields
the source reads: `success`, `message` and the optimized point `x`
(the log10 correlation coefficients, one per input dimension). -/
structure OptResult (d : ℕ) where
  success : Bool
  message : String
  x : Fin d → ℝ

/-- Oracle for `scipy.linalg.svd` on an n-by-n matrix: returns the triple
(U, S, Vh).  The embedding treats the factorization as an uninterpreted
function; every theorem below holds for an arbitrary `SvdFun`. -/
def SvdFun (n : ℕ) : Type :=
  Matrix (Fin n) (Fin n) ℝ →
    Matrix (Fin n) (Fin n) ℝ × (Fin n → ℝ) × Matrix (Fin n) (Fin n) ℝ

/-- Per-column mean of a matrix, `np.mean(x, axis=0)`. -/
def colMean {n d : ℕ} (x : Matrix (Fin n) (Fin d) ℝ) : Fin d → ℝ :=
  fun k => (∑ i, x i k) / (n : ℝ)

/-- Per-column population standard deviation, `np.std(x, axis=0)`
(numpy default `ddof=0`, i.e. dividing by `n`). -/
def colStd {n d : ℕ} (x : Matrix (Fin n) (Fin d) ℝ) : Fin d → ℝ :=
  fun k => Real.sqrt ((∑ i, (x i k - colMean x k) ^ 2) / (n : ℝ))

/-- The clamping `X_std[X_std == 0.] = 1.` from `train`: any standard
deviation that is exactly zero is replaced by one. -/
def clampStd {d : ℕ} (s : Fin d → ℝ) : Fin d → ℝ :=
  fun k => if s k = 0 then 1 else s k

/-- Normalization `(value - mean) / std`, applied columnwise. -/
def normalizeData {n d : ℕ} (x : Matrix (Fin n) (Fin d) ℝ)
    (m s : Fin d → ℝ) : Matrix (Fin n) (Fin d) ℝ :=
  fun i k => (x i k - m k) / s k

/-- The `distances` tensor filled by the loop in
`_calculate_reduced_likelihood_params`: `distances[i, k, j]` is the
per-dimension absolute difference `abs(X[i, k] - X[j, k])` for `i != j`
(each off-diagonal pair is written once directly and once as the
transposed copy), and the diagonal keeps its initial value zero. -/
def distances {n d : ℕ} (X : Matrix (Fin n) (Fin d) ℝ) :
    Fin n → Fin d → Fin n → ℝ :=
  fun i k j => if i = j then 0 else |X i k - X j k|

/-- The matrix `R = np.exp(-thetas.dot(np.square(distances)))` before the
diagonal is overwritten: `thetas.dot` contracts the dimension axis. -/
def corrBase {n d : ℕ} (thetas : Fin d → ℝ)
    (X : Matrix (Fin n) (Fin d) ℝ) : Matrix (Fin n) (Fin n) ℝ :=
  fun i j => Real.exp (-(∑ k, thetas k * distances X i k j ^ 2))

/-- The correlation matrix after `R[np.diag_indices_from(R)] = 1. + self.nugget`. -/
def corrMatrix {n d : ℕ} (thetas : Fin d → ℝ)
    (X : Matrix (Fin n) (Fin d) ℝ) (nugget : ℝ) : Matrix (Fin n) (Fin n) ℝ :=
  fun i j => if i = j then 1 + nugget else corrBase thetas X i j

/-- The leading singular value `S[0]`.  The evaluator only runs with
`n_samples >= 2` (train rejects smaller sets first), so the `n = 0`
fallback value is never reached; it keeps the definition total. -/
def sZero {n : ℕ} (S : Fin n → ℝ) : ℝ :=
  if h : 0 < n then S ⟨0, h⟩ else 0

/-- Tikhonov damping constant `h = 1e-8 * S[0]`. -/
def tikhonovH {n : ℕ} (S : Fin n → ℝ) : ℝ :=
  1e-8 * sZero S

/-- Regularized reciprocal singular values
`inv_factors = S / (S ** 2. + h ** 2.)`. -/
def invFactors {n : ℕ} (S : Fin n → ℝ) : Fin n → ℝ :=
  fun i => S i / (S i ^ 2 + tikhonovH S ^ 2)

/-- The pseudo-inverse line
`R_inv = Vh.T.dot(np.einsum('i,ij->ij', inv_factors, U.T))`:
the einsum scales row `i` of `U.T` by `inv_factors[i]`, and the outer
`dot` contracts that row index against the rows of `Vh`. -/
def rInvOf {n : ℕ} (Vh U : Matrix (Fin n) (Fin n) ℝ) (invf : Fin n → ℝ) :
    Matrix (Fin n) (Fin n) ℝ :=
  fun a b => ∑ i, Vh i a * (invf i * U b i)

/-- The log-determinant proxy `logdet = 2.0 * np.sum(np.log(np.abs(inv_factors)))`. -/
def logdetOf {n : ℕ} (invf : Fin n → ℝ) : ℝ :=
  2.0 * ∑ i, Real.log |invf i|

/-- The generalized-least-squares mean
`mu = np.dot(one.T, np.dot(R_inv, Y)) / np.dot(one.T, np.dot(R_inv, one))`,
a 1-by-n_y array divided elementwise by a 1-by-1 array. -/
def muOf {n ny : ℕ} (R_inv : Matrix (Fin n) (Fin n) ℝ)
    (Y : Matrix (Fin n) (Fin ny) ℝ) : Matrix (Fin 1) (Fin ny) ℝ :=
  fun _ o => (∑ a, ∑ b, R_inv a b * Y b o) / (∑ a, ∑ b, R_inv a b)

/-- The residual-weighting vector `c_r = np.dot(R_inv, (Y - one * mu))`;
`one * mu` broadcasts `mu` to every sample row. -/
def cROf {n ny : ℕ} (R_inv : Matrix (Fin n) (Fin n) ℝ)
    (Y : Matrix (Fin n) (Fin ny) ℝ) (mu : Matrix (Fin 1) (Fin ny) ℝ) :
    Matrix (Fin n) (Fin ny) ℝ :=
  fun s o => ∑ j, R_inv s j * (Y j o - mu 0 o)

/-- The process variance
`SigmaSqr = np.dot((Y - one * mu).T, c_r) / self.n_samples`. -/
def sigmaSqrOf {n ny : ℕ} (Y : Matrix (Fin n) (Fin ny) ℝ)
    (mu : Matrix (Fin 1) (Fin ny) ℝ) (c_r : Matrix (Fin n) (Fin ny) ℝ) :
    Matrix (Fin ny) (Fin ny) ℝ :=
  fun a b => (∑ s, (Y s a - mu 0 a) * c_r s b) / (n : ℝ)

/-- The returned scalar proxy, elementwise on the `SigmaSqr` array:
`1.0 * (-(n_samples / 2.0) * np.log(SigmaSqr) - 0.5 * logdet)`. -/
def reducedOf {ny : ℕ} (nSamples : ℕ)
    (SigmaSqr : Matrix (Fin ny) (Fin ny) ℝ) (logdet : ℝ) :
    Matrix (Fin ny) (Fin ny) ℝ :=
  fun a b => 1.0 * (-((nSamples : ℝ) / 2.0) * Real.log (SigmaSqr a b) - 0.5 * logdet)

/-- The dict of derived quantities built by
`_calculate_reduced_likelihood_params`, together with the returned
reduced-likelihood value. -/
structure LikelihoodParams (n ny : ℕ) where
  U : Matrix (Fin n) (Fin n) ℝ
  S : Fin n → ℝ
  Vh : Matrix (Fin n) (Fin n) ℝ
  S_inv : Fin n → ℝ
  R_inv : Matrix (Fin n) (Fin n) ℝ
  mu : Matrix (Fin 1) (Fin ny) ℝ
  c_r : Matrix (Fin n) (Fin ny) ℝ
  SigmaSqr : Matrix (Fin ny) (Fin ny) ℝ
  logdet : ℝ
  reducedLikelihood : Matrix (Fin ny) (Fin ny) ℝ

/-- The body of `_calculate_reduced_likelihood_params` for a given
`thetas`, over stored training data `X`, `Y`, the nugget, and the SVD
oracle standing for `scipy.linalg.svd`. -/
def calcReducedLikelihoodParams {n d ny : ℕ} (svd : SvdFun n)
    (thetas : Fin d → ℝ) (X : Matrix (Fin n) (Fin d) ℝ)
    (Y : Matrix (Fin n) (Fin ny) ℝ) (nugget : ℝ) : LikelihoodParams n ny :=
  let R := corrMatrix thetas X nugget
  let USV := svd R
  let U := USV.1
  let S := USV.2.1
  let Vh := USV.2.2
  let invf := invFactors S
  let R_inv := rInvOf Vh U invf
  let mu := muOf R_inv Y
  let c_r := cROf R_inv Y mu
  let SigmaSqr := sigmaSqrOf Y mu c_r
  { U := U, S := S, Vh := Vh, S_inv := invf, R_inv := R_inv, mu := mu,
    c_r := c_r, SigmaSqr := SigmaSqr, logdet := logdetOf invf,
    reducedLikelihood := reducedOf n SigmaSqr (logdetOf invf) }

/-- The Engine state after the assignments in `train`: the normalized (or
raw) training data, the normalization statistics, `thetas`, and the
retained CorrelationModel fields.  `alpha` keeps the value given to it
by `__init__` (`np.zeros(0)`, the empty array): no statement of `train`
ever assigns it, the alternative computation that would is commented
out in the source. -/
structure Fitted (d n ny : ℕ) where
  thetas : Fin d → ℝ
  X : Matrix (Fin n) (Fin d) ℝ
  Y : Matrix (Fin n) (Fin ny) ℝ
  X_mean : Fin d → ℝ
  X_std : Fin d → ℝ
  Y_mean : Fin ny → ℝ
  Y_std : Fin ny → ℝ
  c_r : Matrix (Fin n) (Fin ny) ℝ
  U : Matrix (Fin n) (Fin n) ℝ
  S_inv : Fin n → ℝ
  Vh : Matrix (Fin n) (Fin n) ℝ
  mu : Matrix (Fin 1) (Fin ny) ℝ
  SigmaSqr : Matrix (Fin ny) (Fin ny) ℝ
  R_inv : Matrix (Fin n) (Fin n) ℝ
  alpha : List (Fin ny → ℝ)
  nugget : ℝ

/-- The state stored by the success path of `train`: normalization
statistics with the zero-std clamp, data stored normalized or raw
according to the flag, `thetas = 10 ** optResult.x`, and the
CorrelationModel recomputed at that `thetas`. -/
def trainFit {d n ny : ℕ} (svd : SvdFun n) (opt : OptResult d)
    (x : Matrix (Fin n) (Fin d) ℝ) (y : Matrix (Fin n) (Fin ny) ℝ)
    (normalize : Bool) (nugget : ℝ) : Fitted d n ny :=
  let Xm := colMean x
  let Xs := clampStd (colStd x)
  let Ym := colMean y
  let Ys := clampStd (colStd y)
  let Xn := if normalize then normalizeData x Xm Xs else x
  let Yn := if normalize then normalizeData y Ym Ys else y
  let thetas : Fin d → ℝ := fun k => (10 : ℝ) ^ opt.x k
  let p := calcReducedLikelihoodParams svd thetas Xn Yn nugget
  { thetas := thetas, X := Xn, Y := Yn, X_mean := Xm, X_std := Xs,
    Y_mean := Ym, Y_std := Ys, c_r := p.c_r, U := p.U, S_inv := p.S_inv,
    Vh := p.Vh, mu := p.mu, SigmaSqr := p.SigmaSqr, R_inv := p.R_inv,
    alpha := [], nugget := nugget }

/-- Observable outcome of a `train` call.  `valueError` is a raised
`ValueError` with its message; `exited` is the source's actual ending:
after storing the state it prints four debug lines and calls `exit()`,
terminating the process; `returned` stands for a normal return to the
caller, which no path of the source's `train` performs. -/
inductive TrainResult (d n ny : ℕ) where
  | valueError (msg : String)
  | exited (st : Fitted d n ny)
  | returned (st : Fitted d n ny)

/-- Boolean discriminator: did `train` end in a normal return? -/
def TrainResult.isNormalReturn {d n ny : ℕ} : TrainResult d n ny → Bool
  | .returned _ => true
  | _ => false

/-- Boolean discriminator: did `train` end in the `exit()` call? -/
def TrainResult.isExited {d n ny : ℕ} : TrainResult d n ny → Bool
  | .exited _ => true
  | _ => false

/-- The `train` method.  `x` and `y` are the inputs after the
`np.atleast_2d` coercion (so `n` is the sample count the source reads
from `x.shape`), `opt` is the outcome of the `scipy.optimize.minimize`
call, and `svd` the SVD oracle used by the likelihood evaluator. -/
def train {d n ny : ℕ} (svd : SvdFun n) (opt : OptResult d)
    (x : Matrix (Fin n) (Fin d) ℝ) (y : Matrix (Fin n) (Fin ny) ℝ)
    (normalize : Bool) (nugget : ℝ) : TrainResult d n ny :=
  if n ≤ 1 then
    .valueError "KrigingSurrogate require at least 2 training points."
  else if opt.success then
    .exited (trainFit svd opt x y normalize nugget)
  else
    .valueError ("Kriging Hyper-parameter optimization failed: " ++ opt.message)

/-- The cross-correlation vectors built by `predict`: one row per query
point, `r[e, s] = exp(-thetas.dot(square(x_n[e] - X[s])))`.  No nugget
term appears here: the formula is the bare Gaussian kernel. -/
def corrVec {ne n d : ℕ} (thetas : Fin d → ℝ)
    (xn : Matrix (Fin ne) (Fin d) ℝ) (X : Matrix (Fin n) (Fin d) ℝ) :
    Matrix (Fin ne) (Fin n) ℝ :=
  fun e s => Real.exp (-(∑ k, thetas k * (xn e k - X s k) ^ 2))

/-- The query points after the optional normalization step of `predict`. -/
def predictQuery {ne d n ny : ℕ} (st : Fitted d n ny) (normalize : Bool)
    (x : Matrix (Fin ne) (Fin d) ℝ) : Matrix (Fin ne) (Fin d) ℝ :=
  if normalize then normalizeData x st.X_mean st.X_std else x

/-- The predicted mean `y = self.mu + np.dot(r.T, self.c_r)`.  In the
source, `r` has first been transposed to a column layout (the guard
`r.shape[1] > 1` holds for every trained engine, since `train` rejects
fewer than 2 samples), so `np.dot(r.T, self.c_r)` contracts the sample
axis and `self.mu` broadcasts over the query rows. -/
def kpredictMean {ne d n ny : ℕ} (st : Fitted d n ny) (normalize : Bool)
    (x : Matrix (Fin ne) (Fin d) ℝ) : Matrix (Fin ne) (Fin ny) ℝ :=
  let r := corrVec st.thetas (predictQuery st normalize x) st.X
  fun e o => st.mu 0 o + ∑ s, r e s * st.c_r s o

/-- The mean-squared-error array
`mse = SigmaSqr * (1.0 - r.T R_inv r + (1.0 - one.T R_inv r)^2 / (one.T R_inv one))`
before clamping.  The embedding covers the single-output case
(`SigmaSqr` of shape 1-by-1), the only case in which numpy broadcasting
of `SigmaSqr` against the n_eval-by-n_eval array inside the parentheses
is defined for a batch; the `(1 - one.T R_inv r)^2` row broadcasts over
the rows of `r.T R_inv r`. -/
def kpredictMse {ne d n : ℕ} (st : Fitted d n 1) (normalize : Bool)
    (x : Matrix (Fin ne) (Fin d) ℝ) : Matrix (Fin ne) (Fin ne) ℝ :=
  let r := corrVec st.thetas (predictQuery st normalize x) st.X
  fun e f =>
    st.SigmaSqr 0 0 *
      (1 - (∑ i, r e i * ∑ j, st.R_inv i j * r f j)
        + (1 - ∑ i, ∑ j, st.R_inv i j * r f j) ^ 2 / ∑ i, ∑ j, st.R_inv i j)

/-- The clamp `mse[mse < 0.] = 0.`: every negative entry is forced to
zero, every other entry is kept. -/
def clampNeg {ne : ℕ} (m : Matrix (Fin ne) (Fin ne) ℝ) :
    Matrix (Fin ne) (Fin ne) ℝ :=
  fun e f => if m e f < 0 then 0 else m e f

/-- Return value of `predict`: either the mean alone (`eval_rmse` false)
or the pair of the mean and the root-mean-squared-error array. -/
inductive PredictOut (ne ny : ℕ) where
  | meanOnly (y : Matrix (Fin ne) (Fin ny) ℝ)
  | withRmse (y : Matrix (Fin ne) (Fin ny) ℝ) (rmse : Matrix (Fin ne) (Fin ne) ℝ)

/-- The `predict` method over a trained state (single-output model, see
`kpredictMse`): computes the mean, and when `eval_rmse` is true also
`np.sqrt(mse)` of the clamped mean-squared-error array. -/
def kpredict {ne d n : ℕ} (st : Fitted d n 1) (evalRmse normalize : Bool)
    (x : Matrix (Fin ne) (Fin d) ℝ) : PredictOut ne 1 :=
  let y := kpredictMean st normalize x
  if evalRmse then
    .withRmse y (fun e f => Real.sqrt (clampNeg (kpredictMse st normalize x) e f))
  else
    .meanOnly y

/-- The `FloatKrigingSurrogate.predict` override:
`dist = super().predict(x, eval_rmse=False); return dist[0]`.
With `eval_rmse=False` the parent returns the mean array alone, so
`dist[0]` selects the first row of the mean array (the prediction for
the first query point only).  The query batch is required to be
nonempty, as indexing `dist[0]` would otherwise raise. -/
def floatKrigPredict {ne d n : ℕ} (st : Fitted d n 1)
    (x : Matrix (Fin (ne + 1)) (Fin d) ℝ) : Fin 1 → ℝ :=
  kpredictMean st true x 0

/-- The unconditional normalization step of `linearize`:
`x_n = (x - self.X_mean) / self.X_std`.  `linearize` has no `normalize`
flag; this line always runs. -/
def linQuery {d n ny : ℕ} (st : Fitted d n ny) (q : Fin d → ℝ) : Fin d → ℝ :=
  fun k => (q k - st.X_mean k) / st.X_std k

/-- The correlation vector of `linearize` for the single query point. -/
def linR {d n : ℕ} (thetas : Fin d → ℝ) (xn : Fin d → ℝ)
    (X : Matrix (Fin n) (Fin d) ℝ) : Fin n → ℝ :=
  fun s => Real.exp (-(∑ k, thetas k * (xn k - X s k) ^ 2))

/-- The kernel gradient
`gradr = r * -2 * np.einsum('i,ij->ij', thetas, (x_n - self.X).T)`:
entry `(k, s)` is `r[s] * (-2) * (thetas[k] * (x_n[k] - X[s, k]))`,
`r` broadcasting along the sample axis. -/
def linGradR {d n : ℕ} (thetas : Fin d → ℝ) (xn : Fin d → ℝ)
    (X : Matrix (Fin n) (Fin d) ℝ) : Matrix (Fin d) (Fin n) ℝ :=
  fun k s => linR thetas xn X s * (-2) * (thetas k * (xn k - X s k))

/-- The `linearize` method.  The final line
`jac = np.einsum('i,j,ij->ij', self.Y_std, 1./self.X_std, gradr.dot(self.alpha).T)`
contracts the sample axis of `gradr` against `self.alpha`; the
contraction is only defined when `alpha` has one entry per sample, so
the embedding returns `none` (the raised shape-mismatch `ValueError`)
when the lengths differ. -/
def linearize {d n ny : ℕ} (st : Fitted d n ny) (q : Fin d → ℝ) :
    Option (Matrix (Fin ny) (Fin d) ℝ) :=
  let xn := linQuery st q
  let gradr := linGradR st.thetas xn st.X
  if hlen : st.alpha.length = n then
    some (fun o k => st.Y_std o * (1 / st.X_std k) *
      ∑ s, gradr k s * st.alpha.get (Fin.cast hlen.symm s) o)
  else
    none

/-- The vector `one = np.ones([n_samples, 1])` used by the evaluator and
by the mean-squared-error formula of `predict`. -/
def onesCol (n : ℕ) : Matrix (Fin n) (Fin 1) ℝ :=
  fun _ _ => 1

/-- The einsum-and-dot chain of the source's `R_inv` line equals the
matrix product `Vh^T (diag inv_factors) U^T`. -/
theorem rInvOf_eq {n : ℕ} (Vh U : Matrix (Fin n) (Fin n) ℝ) (invf : Fin n → ℝ) :
    rInvOf Vh U invf = Vhᵀ * Matrix.diagonal invf * Uᵀ := by
  ext a b
  rw [Matrix.mul_assoc, Matrix.mul_apply]
  simp only [Matrix.diagonal_mul, Matrix.transpose_apply, rInvOf]

/-- The broadcast quotient of `mu` equals the quotient of the matrix
products with the all-ones column. -/
theorem muOf_eq {n ny : ℕ} (R_inv : Matrix (Fin n) (Fin n) ℝ)
    (Y : Matrix (Fin n) (Fin ny) ℝ) (o : Fin ny) :
    muOf R_inv Y 0 o =
      ((onesCol n)ᵀ * R_inv * Y) 0 o / ((onesCol n)ᵀ * R_inv * onesCol n) 0 0 := by
  simp only [muOf, Matrix.mul_apply, Matrix.transpose_apply, onesCol, one_mul,
    mul_one, Finset.sum_mul]
  congr 1
  · exact Finset.sum_comm
  · exact Finset.sum_comm

/-- The broadcast residual product of `c_r` equals the matrix form. -/
theorem cROf_eq {n ny : ℕ} (R_inv : Matrix (Fin n) (Fin n) ℝ)
    (Y : Matrix (Fin n) (Fin ny) ℝ) (mu : Matrix (Fin 1) (Fin ny) ℝ) :
    cROf R_inv Y mu = R_inv * (Y - onesCol n * mu) := by
  ext s o
  simp [cROf, Matrix.mul_apply, Matrix.sub_apply, onesCol]

/-- The `SigmaSqr` line equals the matrix form divided by the sample count. -/
theorem sigmaSqrOf_eq {n ny : ℕ} (Y : Matrix (Fin n) (Fin ny) ℝ)
    (mu : Matrix (Fin 1) (Fin ny) ℝ) (c_r : Matrix (Fin n) (Fin ny) ℝ)
    (a b : Fin ny) :
    sigmaSqrOf Y mu c_r a b = ((Y - onesCol n * mu)ᵀ * c_r) a b / (n : ℝ) := by
  simp [sigmaSqrOf, Matrix.mul_apply, Matrix.sub_apply, Matrix.transpose_apply,
    onesCol]

/-- C7: the correlation matrix built by the reduced-likelihood evaluator
has `R[i,j] = exp(-sum_k thetas[k] * (X[i,k] - X[j,k])^2)` off the
diagonal, `1 + nugget` on the diagonal, and is symmetric. -/
theorem corr_matrix_kernel_diag_symm {n d : ℕ} (thetas : Fin d → ℝ)
    (X : Matrix (Fin n) (Fin d) ℝ) (nugget : ℝ) :
    (∀ i j : Fin n, corrMatrix thetas X nugget i j =
      if i = j then 1 + nugget
      else Real.exp (-(∑ k, thetas k * (X i k - X j k) ^ 2))) ∧
    (∀ i, corrMatrix thetas X nugget i i = 1 + nugget) ∧
    (∀ i j, corrMatrix thetas X nugget i j = corrMatrix thetas X nugget j i) := by
  have key : ∀ i j : Fin n, corrMatrix thetas X nugget i j =
      if i = j then 1 + nugget
      else Real.exp (-(∑ k, thetas k * (X i k - X j k) ^ 2)) := by
    intro i j
    by_cases h : i = j
    · simp [corrMatrix, h]
    · simp only [corrMatrix, corrBase, distances, if_neg h]
      congr 2
      exact Finset.sum_congr rfl fun k _ => by rw [sq_abs]
  refine ⟨key, fun i => by simp [key i i], fun i j => ?_⟩
  rw [key i j, key j i]
  by_cases h : i = j
  · simp [h]
  · rw [if_neg h, if_neg (Ne.symm h)]
    congr 2
    exact Finset.sum_congr rfl fun k _ => by ring

/-- C9: with a single sample row (after the 2-D coercion), `train`
raises the insufficient-data `ValueError` for every optimizer oracle,
so no hyperparameter optimization outcome can influence the result. -/
theorem train_single_point_value_error {d n ny : ℕ} (hn : n ≤ 1)
    (svd : SvdFun n) (opt : OptResult d) (x : Matrix (Fin n) (Fin d) ℝ)
    (y : Matrix (Fin n) (Fin ny) ℝ) (normalize : Bool) (nugget : ℝ) :
    train svd opt x y normalize nugget =
      .valueError "KrigingSurrogate require at least 2 training points." := by
  simp [train, hn]

/-- Concrete instances for the witnesses below. -/
def svdOne : SvdFun 1 :=
  fun R => (R, fun _ => 1, R)

def optTrue : OptResult 1 :=
  ⟨true, "", fun _ => 0⟩

def xOne : Matrix (Fin 1) (Fin 1) ℝ :=
  fun _ _ => 0

def yOne : Matrix (Fin 1) (Fin 1) ℝ :=
  fun _ _ => 0

theorem train_single_point_value_error_witness :
    1 ≤ 1 ∧ train svdOne optTrue xOne yOne true 0 =
      .valueError "KrigingSurrogate require at least 2 training points." :=
  ⟨le_refl 1,
    train_single_point_value_error (le_refl 1) svdOne optTrue xOne yOne true 0⟩

/-- C2: after any `train` call with at least two samples, the `alpha`
field still holds the empty array from `__init__` (no statement of
`train` assigns it), so the contraction `gradr.dot(self.alpha)` in
`linearize` is a shape mismatch: `linearize` raises instead of
returning a Jacobian built from `c_r`. -/
theorem linearize_after_train_shape_error {d m ny : ℕ} (svd : SvdFun (m + 2))
    (opt : OptResult d) (x : Matrix (Fin (m + 2)) (Fin d) ℝ)
    (y : Matrix (Fin (m + 2)) (Fin ny) ℝ) (normalize : Bool) (nugget : ℝ)
    (q : Fin d → ℝ) :
    (trainFit svd opt x y normalize nugget).alpha = [] ∧
    linearize (trainFit svd opt x y normalize nugget) q = none := by
  refine ⟨rfl, ?_⟩
  have h : (trainFit svd opt x y normalize nugget).alpha.length ≠ m + 2 := by
    simp [trainFit]
  simp [linearize, h]

/-- The property that a fitted state holds the full CorrelationModel
computed by the reduced-likelihood evaluator at the given `thetas`
over its own stored training data. -/
def storesModelAt {d n ny : ℕ} (st : Fitted d n ny) (svd : SvdFun n)
    (thetas : Fin d → ℝ) (nugget : ℝ) : Prop :=
  st.thetas = thetas ∧
  st.c_r = (calcReducedLikelihoodParams svd thetas st.X st.Y nugget).c_r ∧
  st.U = (calcReducedLikelihoodParams svd thetas st.X st.Y nugget).U ∧
  st.S_inv = (calcReducedLikelihoodParams svd thetas st.X st.Y nugget).S_inv ∧
  st.Vh = (calcReducedLikelihoodParams svd thetas st.X st.Y nugget).Vh ∧
  st.mu = (calcReducedLikelihoodParams svd thetas st.X st.Y nugget).mu ∧
  st.SigmaSqr = (calcReducedLikelihoodParams svd thetas st.X st.Y nugget).SigmaSqr ∧
  st.R_inv = (calcReducedLikelihoodParams svd thetas st.X st.Y nugget).R_inv

/-- C1: on a training set with at least two samples and an optimizer
reporting success, `train` stores `thetas = 10 ** optResult.x` together
with the full CorrelationModel computed at that `thetas`, but then the
source executes `exit()`: the outcome is process termination, never a
normal return of control to the caller. -/
theorem train_success_stores_model_then_exits {d m ny : ℕ}
    (svd : SvdFun (m + 2)) (msg : String) (xv : Fin d → ℝ)
    (x : Matrix (Fin (m + 2)) (Fin d) ℝ) (y : Matrix (Fin (m + 2)) (Fin ny) ℝ)
    (normalize : Bool) (nugget : ℝ) :
    train svd ⟨true, msg, xv⟩ x y normalize nugget =
      .exited (trainFit svd ⟨true, msg, xv⟩ x y normalize nugget) ∧
    storesModelAt (trainFit svd ⟨true, msg, xv⟩ x y normalize nugget) svd
      (fun k => (10 : ℝ) ^ xv k) nugget ∧
    (train svd ⟨true, msg, xv⟩ x y normalize nugget).isNormalReturn = false ∧
    (train svd ⟨true, msg, xv⟩ x y normalize nugget).isExited = true := by
  have h1 : ¬(m + 2 ≤ 1) := by omega
  have htr : train svd ⟨true, msg, xv⟩ x y normalize nugget =
      .exited (trainFit svd ⟨true, msg, xv⟩ x y normalize nugget) := by
    simp [train, h1]
  refine ⟨htr, ?_, by rw [htr]; rfl, by rw [htr]; rfl⟩
  exact ⟨rfl, rfl, rfl, rfl, rfl, rfl, rfl, rfl⟩

/-- C10: `train` with `normalize=false` stores the raw data but still
computes and stores the normalization statistics, and the query
normalization line of `linearize` applies those statistics
unconditionally (the method has no `normalize` flag). -/
theorem linearize_normalizes_despite_raw_training {d m ny : ℕ}
    (svd : SvdFun (m + 2)) (opt : OptResult d)
    (x : Matrix (Fin (m + 2)) (Fin d) ℝ) (y : Matrix (Fin (m + 2)) (Fin ny) ℝ)
    (nugget : ℝ) (q : Fin d → ℝ) :
    (trainFit svd opt x y false nugget).X = x ∧
    (trainFit svd opt x y false nugget).Y = y ∧
    (trainFit svd opt x y false nugget).X_mean = colMean x ∧
    (trainFit svd opt x y false nugget).X_std = clampStd (colStd x) ∧
    (trainFit svd opt x y false nugget).Y_mean = colMean y ∧
    (trainFit svd opt x y false nugget).Y_std = clampStd (colStd y) ∧
    linQuery (trainFit svd opt x y false nugget) q =
      fun k => (q k - colMean x k) / clampStd (colStd x) k :=
  ⟨rfl, rfl, rfl, rfl, rfl, rfl, rfl⟩

/-- A clamped standard deviation is strictly positive: it is either the
clamp value one, or a nonzero square root. -/
theorem clampStd_colStd_pos {n d : ℕ} (x : Matrix (Fin n) (Fin d) ℝ)
    (k : Fin d) : 0 < clampStd (colStd x) k := by
  unfold clampStd
  split_ifs with h
  · exact one_pos
  · exact lt_of_le_of_ne (Real.sqrt_nonneg _) (Ne.symm h)

/-- C8: any per-column standard deviation that is exactly zero is
replaced by one; the clamped deviations are strictly positive (so the
normalization divisions are by nonzero numbers); with `normalize=true`
the stored data is `(value - mean) / clamped std` and with
`normalize=false` the raw data is stored. -/
theorem train_clamps_zero_std {d m ny : ℕ} (svd : SvdFun (m + 2))
    (opt : OptResult d) (x : Matrix (Fin (m + 2)) (Fin d) ℝ)
    (y : Matrix (Fin (m + 2)) (Fin ny) ℝ) (nugget : ℝ) :
    (∀ k, colStd x k = 0 → clampStd (colStd x) k = 1) ∧
    (∀ o, colStd y o = 0 → clampStd (colStd y) o = 1) ∧
    (∀ k, 0 < clampStd (colStd x) k) ∧
    (∀ o, 0 < clampStd (colStd y) o) ∧
    (trainFit svd opt x y true nugget).X =
      normalizeData x (colMean x) (clampStd (colStd x)) ∧
    (trainFit svd opt x y true nugget).Y =
      normalizeData y (colMean y) (clampStd (colStd y)) ∧
    (trainFit svd opt x y false nugget).X = x ∧
    (trainFit svd opt x y false nugget).Y = y := by
  refine ⟨fun k h => ?_, fun o h => ?_, fun k => clampStd_colStd_pos x k,
    fun o => clampStd_colStd_pos y o, rfl, rfl, rfl, rfl⟩
  · simp [clampStd, h]
  · simp [clampStd, h]

/-- Concrete training set with a constant input column, for the C8
witness: its input standard deviation is exactly zero. -/
def xConst : Matrix (Fin 2) (Fin 1) ℝ :=
  fun _ _ => 3

def yConst : Matrix (Fin 2) (Fin 1) ℝ :=
  fun _ _ => 0

def svdTwo : SvdFun 2 :=
  fun R => (R, fun _ => 1, R)

theorem train_clamps_zero_std_witness :
    colStd xConst 0 = 0 ∧ clampStd (colStd xConst) 0 = 1 := by
  have hz : colStd xConst 0 = 0 := by
    simp [colStd, colMean, xConst, Fin.sum_univ_two]
  exact ⟨hz, (train_clamps_zero_std svdTwo optTrue xConst yConst 0).1 0 hz⟩

/-- C6: the reduced-likelihood evaluator regularizes the SVD with
`h = 1e-8 * S[0]` and `inv_factors = S / (S^2 + h^2)`, computes
`R_inv = Vh^T diag(inv_factors) U^T`, the generalized-least-squares
mean `mu`, the residual vector `c_r`, `SigmaSqr`, and returns the
reduced log-likelihood with `logdet = 2 * sum(log |inv_factors|)`. -/
theorem reduced_likelihood_evaluator_formulas {n d ny : ℕ} (svd : SvdFun n)
    (thetas : Fin d → ℝ) (X : Matrix (Fin n) (Fin d) ℝ)
    (Y : Matrix (Fin n) (Fin ny) ℝ) (nugget : ℝ) :
    let S := (svd (corrMatrix thetas X nugget)).2.1
    let U := (svd (corrMatrix thetas X nugget)).1
    let Vh := (svd (corrMatrix thetas X nugget)).2.2
    let P := calcReducedLikelihoodParams svd thetas X Y nugget
    let ones := onesCol n
    (∀ i, P.S_inv i = S i / (S i ^ 2 + (1e-8 * sZero S) ^ 2)) ∧
    P.R_inv = Vhᵀ * Matrix.diagonal P.S_inv * Uᵀ ∧
    (∀ o, P.mu 0 o = (onesᵀ * P.R_inv * Y) 0 o / (onesᵀ * P.R_inv * ones) 0 0) ∧
    P.c_r = P.R_inv * (Y - ones * P.mu) ∧
    (∀ a b, P.SigmaSqr a b = ((Y - ones * P.mu)ᵀ * P.c_r) a b / (n : ℝ)) ∧
    P.logdet = 2 * ∑ i, Real.log |P.S_inv i| ∧
    (∀ a b, P.reducedLikelihood a b =
      -((n : ℝ) / 2) * Real.log (P.SigmaSqr a b) - 0.5 * P.logdet) := by
  intro S U Vh P ones
  refine ⟨fun i => rfl, ?_, fun o => ?_, ?_, fun a b => ?_, ?_, fun a b => ?_⟩
  · exact rInvOf_eq Vh U (invFactors S)
  · exact muOf_eq (rInvOf Vh U (invFactors S)) Y o
  · exact cROf_eq (rInvOf Vh U (invFactors S)) Y (muOf (rInvOf Vh U (invFactors S)) Y)
  · exact sigmaSqrOf_eq Y _ _ a b
  · show logdetOf (invFactors S) = 2 * ∑ i, Real.log |invFactors S i|
    norm_num [logdetOf]
  · show reducedOf n
        (sigmaSqrOf Y (muOf (rInvOf Vh U (invFactors S)) Y)
          (cROf (rInvOf Vh U (invFactors S)) Y
            (muOf (rInvOf Vh U (invFactors S)) Y)))
        (logdetOf (invFactors S)) a b =
      -((n : ℝ) / 2) * Real.log
        (sigmaSqrOf Y (muOf (rInvOf Vh U (invFactors S)) Y)
          (cROf (rInvOf Vh U (invFactors S)) Y
            (muOf (rInvOf Vh U (invFactors S)) Y)) a b)
        - 0.5 * logdetOf (invFactors S)
    norm_num [reducedOf]

/-- C4: `predict` builds the correlation vector from the stored
`thetas` with the bare Gaussian kernel (no nugget term appears), the
predicted mean is `mu + r^T c_r` (after the column-transposition of
`r`, undone by the second transpose in the mean line), and with
`eval_rmse` false the mean is the complete return value. -/
theorem predict_mean_blup_formula {ne d n ny : ℕ} (st : Fitted d n ny)
    (st1 : Fitted d n 1) (normalize : Bool) (x : Matrix (Fin ne) (Fin d) ℝ)
    (x1 : Matrix (Fin ne) (Fin d) ℝ) :
    (∀ e s, corrVec st.thetas (predictQuery st normalize x) st.X e s =
      Real.exp (-(∑ k, st.thetas k *
        (predictQuery st normalize x e k - st.X s k) ^ 2))) ∧
    kpredictMean st normalize x = (fun e o => st.mu 0 o +
      (((corrVec st.thetas (predictQuery st normalize x) st.X)ᵀ)ᵀ * st.c_r) e o) ∧
    kpredict st1 false normalize x1 = .meanOnly (kpredictMean st1 normalize x1) := by
  refine ⟨fun e s => rfl, ?_, rfl⟩
  ext e o
  simp [kpredictMean, Matrix.mul_apply, Matrix.transpose_apply]

/-- C5: with `eval_rmse` true, `predict` returns the mean together with
the square root of the clamped mean-squared-error array; the
mean-squared-error is the stated `SigmaSqr`-scaled expression, every
negative entry is clamped to zero before the square root (so the
square root is never taken of a negative number), and every returned
root-mean-squared-error entry is non-negative. -/
theorem predict_rmse_clamped_nonneg {ne d n : ℕ} (st : Fitted d n 1)
    (normalize : Bool) (x : Matrix (Fin ne) (Fin d) ℝ) :
    kpredict st true normalize x = .withRmse (kpredictMean st normalize x)
      (fun e f => Real.sqrt (clampNeg (kpredictMse st normalize x) e f)) ∧
    (∀ e f, kpredictMse st normalize x e f = st.SigmaSqr 0 0 *
      (1 - (((corrVec st.thetas (predictQuery st normalize x) st.X)ᵀ)ᵀ *
          st.R_inv * (corrVec st.thetas (predictQuery st normalize x) st.X)ᵀ) e f
        + (1 - ((onesCol n)ᵀ * st.R_inv *
            (corrVec st.thetas (predictQuery st normalize x) st.X)ᵀ) 0 f) ^ 2
          / ((onesCol n)ᵀ * st.R_inv * onesCol n) 0 0)) ∧
    (∀ e f, clampNeg (kpredictMse st normalize x) e f =
      if kpredictMse st normalize x e f < 0 then 0
      else kpredictMse st normalize x e f) ∧
    (∀ e f, 0 ≤ clampNeg (kpredictMse st normalize x) e f) ∧
    (∀ e f, 0 ≤ Real.sqrt (clampNeg (kpredictMse st normalize x) e f)) := by
  refine ⟨rfl, fun e f => ?_, fun e f => rfl, fun e f => ?_, fun e f =>
    Real.sqrt_nonneg _⟩
  · set r := corrVec st.thetas (predictQuery st normalize x) st.X with hr
    have hA : (∑ i, r e i * ∑ j, st.R_inv i j * r f j)
        = ∑ j, (∑ i, r e i * st.R_inv i j) * r f j := by
      simp only [Finset.mul_sum, Finset.sum_mul]
      rw [Finset.sum_comm]
      exact Finset.sum_congr rfl fun j _ => Finset.sum_congr rfl fun i _ => by ring
    have hB : (∑ i, ∑ j, st.R_inv i j * r f j)
        = ∑ j, (∑ i, st.R_inv i j) * r f j := by
      rw [Finset.sum_comm]
      exact Finset.sum_congr rfl fun j _ => (Finset.sum_mul _ _ _).symm
    have hD : (∑ i, ∑ j, st.R_inv i j) = ∑ j, ∑ i, st.R_inv i j :=
      Finset.sum_comm
    show st.SigmaSqr 0 0 *
        (1 - (∑ i, r e i * ∑ j, st.R_inv i j * r f j)
          + (1 - ∑ i, ∑ j, st.R_inv i j * r f j) ^ 2
            / ∑ i, ∑ j, st.R_inv i j) = _
    rw [hA, hB, hD]
    simp only [Matrix.mul_apply, Matrix.transpose_apply, onesCol, one_mul, mul_one]
  · unfold clampNeg
    split_ifs with h
    · exact le_refl 0
    · exact le_of_not_lt h

/-- C3 (amended): the scalar-predictor variant calls the full predictor
with `eval_rmse=False` (which then returns the mean array alone) and
returns the first row of that array: the mean for the first query
point, not the whole mean component. -/
theorem floatkrig_returns_first_row {ne d n : ℕ} (st : Fitted d n 1)
    (x : Matrix (Fin (ne + 1)) (Fin d) ℝ) :
    kpredict st false true x = .meanOnly (kpredictMean st true x) ∧
    (∀ o, floatKrigPredict st x o = kpredictMean st true x 0 o) ∧
    (∀ o, floatKrigPredict st x o = st.mu 0 o + ∑ s,
      corrVec st.thetas (predictQuery st true x) st.X 0 s * st.c_r s o) :=
  ⟨rfl, fun _ => rfl, fun _ => rfl⟩

/-- Concrete fitted state and query batches for the C3 counterexample:
two training points at 0 and 1 on one input dimension, identity
normalization statistics, `c_r` weighting only the first sample. -/
def stBatch : Fitted 1 2 1 :=
  { thetas := fun _ => 1
    X := fun i _ => if i = 0 then 0 else 1
    Y := fun _ _ => 0
    X_mean := fun _ => 0
    X_std := fun _ => 1
    Y_mean := fun _ => 0
    Y_std := fun _ => 1
    c_r := fun s _ => if s = 0 then 1 else 0
    U := fun _ _ => 0
    S_inv := fun _ => 0
    Vh := fun _ _ => 0
    mu := fun _ _ => 0
    SigmaSqr := fun _ _ => 0
    R_inv := fun _ _ => 0
    alpha := []
    nugget := 0 }

/-- Batch of two query points agreeing on the first point. -/
def xBatchA : Matrix (Fin 2) (Fin 1) ℝ :=
  fun _ _ => 0

/-- Batch of two query points differing from `xBatchA` on the second. -/
def xBatchB : Matrix (Fin 2) (Fin 1) ℝ :=
  fun e _ => if e = 0 then 0 else 1

/-- C3 is false as stated: on two batches that agree only on their
first query point, the scalar predictor returns the same value while
the mean components returned by the full predictor differ, so the
scalar predictor cannot be returning the mean component of the full
predictor. -/
theorem floatkrig_not_full_mean :
    floatKrigPredict stBatch xBatchA = floatKrigPredict stBatch xBatchB ∧
    kpredictMean stBatch true xBatchA ≠ kpredictMean stBatch true xBatchB := by
  constructor
  · funext o
    simp [floatKrigPredict, kpredictMean, corrVec, predictQuery, normalizeData,
      stBatch, xBatchA, xBatchB, Fin.sum_univ_two, Fin.sum_univ_one]
  · intro h
    have h10 := congrFun (congrFun h 1) 0
    simp [kpredictMean, corrVec, predictQuery, normalizeData, stBatch,
      xBatchA, xBatchB, Fin.sum_univ_two, Fin.sum_univ_one] at h10
    rw [eq_comm, Real.exp_eq_one_iff] at h10
    norm_num at h10

end

end Kriging
